import Mathlib

/-!
Verification of the metadata normalization and validation pipeline of
`src/app.py` (Readhacker book research tool).

The Python functions `sanitize_input`, `normalize_metadata` and
`validate_metadata`, together with the parse / normalize / validate call
site (lines 249-269 of `src/app.py`), are shallowly embedded below.
JSON values are modelled by the inductive type `Json`; Python dicts are
association lists in insertion order (Python 3.7+ dict semantics, and
`json.loads` produces dicts with unique keys).  Python code paths that
raise an uncaught exception (e.g. `AttributeError` when `.get` is called
on a non-dict) are modelled by returning `none`.
-/

namespace BookResearch

/-- JSON values as produced by `json.loads`: null, booleans, numbers,
strings, arrays and objects.  Numbers are modelled as integers; no claim
depends on numeric values, only on the type tag. -/
inductive Json where
  | null : Json
  | bool : Bool → Json
  | num : Int → Json
  | str : String → Json
  | arr : List Json → Json
  | obj : List (String × Json) → Json

/-- Python `d.get(key)` on a dict: the value at the first matching key,
or `none` when absent. -/
def getKey : List (String × Json) → String → Option Json
  | [], _ => none
  | (k, v) :: rest, key => if k = key then some v else getKey rest key

/-- Python `d[key] = v` on a dict: replace the value at an existing key in
place, preserving insertion order, or append a fresh binding. -/
def setKey : List (String × Json) → String → Json → List (String × Json)
  | [], key, v => [(key, v)]
  | (k, w) :: rest, key, v =>
      if k = key then (key, v) :: rest else (k, w) :: setKey rest key v

/-- The `title.english` step of `normalize_metadata` (src/app.py lines
119-120): if `metadata_json.get("title", \x7b\x7d).get("english")` is a string,
wrap it in a one-element array.  Python raises `AttributeError` when the
value at `"title"` is present but not a dict (strings, lists, numbers have
no `.get`); that crash is modelled by `none`. -/
def normalizeTitle (fields : List (String × Json)) :
    Option (List (String × Json)) :=
  match getKey fields "title" with
  | none => some fields
  | some (.obj tfields) =>
      match getKey tfields "english" with
      | some (.str s) =>
          some (setKey fields "title"
            (.obj (setKey tfields "english" (.arr [.str s]))))
      | _ => some fields
  | some _ => none

/-- The per-key loop body of `normalize_metadata` (src/app.py lines
123-130) for `key` in `["authors", "sources"]`:
`value = metadata_json.get(key, [])`; a dict or a string is wrapped into a
one-element list; a value that is not a dict, string or list (null, bool,
number) is replaced by the empty list; an absent key defaults to `[]`,
which is already a list, so nothing is written. -/
def normArrayField (fields : List (String × Json)) (key : String) :
    List (String × Json) :=
  match getKey fields key with
  | none => fields
  | some (.obj o) => setKey fields key (.arr [.obj o])
  | some (.str s) => setKey fields key (.arr [.str s])
  | some (.arr _) => fields
  | some _ => setKey fields key (.arr [])

/-- `normalize_metadata` (src/app.py lines 108-132).  The argument is the
raw `json.loads` result; a non-dict argument makes the first
`metadata_json.get` raise `AttributeError`, modelled by `none`. -/
def normalize_metadata : Json → Option Json
  | .obj fields =>
      (normalizeTitle fields).map
        (fun f => .obj (normArrayField (normArrayField f "authors") "sources"))
  | _ => none

/-- First error of a list of optional errors; `jsonschema` collects errors
in schema order and `validate` raises one of them, here modelled as the
first in evaluation order (the claims only depend on single-violation
records, where the choice is unique). -/
def firstErr : List (Option String) → Option String
  | [] => none
  | none :: rest => firstErr rest
  | some e :: _ => some e

/-- The top-level property names of `BOOK_SCHEMA` (src/app.py lines
23-50); `additionalProperties: false` forbids any other key. -/
def allowedKeys : List String :=
  ["title", "authors", "language", "publication_date", "sources"]

/-- Validation of the `title` subschema of `BOOK_SCHEMA`: an object whose
`original`, when present, is a string, whose `english`, when present, is
an array of strings, and with `original` required.  Keywords are checked
in schema order (type, properties, required).  Error texts model the
human-readable `jsonschema` messages. -/
def checkTitle : Json → Option String
  | .obj tfields =>
      firstErr
        [ (match getKey tfields "original" with
           | none => none
           | some (.str _) => none
           | some _ => some "title.original is not of type string"),
          (match getKey tfields "english" with
           | none => none
           | some (.arr xs) =>
               firstErr (xs.map (fun x =>
                 match x with
                 | .str _ => none
                 | _ => some "title.english items must be of type string"))
           | some _ => some "title.english is not of type array"),
          (if (getKey tfields "original").isSome then none
           else some "original is a required property") ]
  | _ => some "title is not of type object"

/-- Validation of one element of `authors` against the item subschema of
`BOOK_SCHEMA`: an object with `full_name` required and, when present, a
string (keyword order: type, required, properties). -/
def checkAuthorItem : Json → Option String
  | .obj afields =>
      firstErr
        [ (if (getKey afields "full_name").isSome then none
           else some "full_name is a required property"),
          (match getKey afields "full_name" with
           | none => none
           | some (.str _) => none
           | some _ => some "authors.full_name is not of type string") ]
  | _ => some "authors items must be of type object"

/-- Validation of the `authors` field: an array of author objects. -/
def checkAuthors : Json → Option String
  | .arr xs => firstErr (xs.map checkAuthorItem)
  | _ => some "authors is not of type array"

/-- Validation of the `sources` field: an array of strings.  The schema
also declares `format: uri`, which the `jsonschema` call in src/app.py
does not check (no `FormatChecker` is passed, so `format` is purely an
annotation). -/
def checkSources : Json → Option String
  | .arr xs =>
      firstErr (xs.map (fun x =>
        match x with
        | .str _ => none
        | _ => some "sources items must be of type string"))
  | _ => some "sources is not of type array"

/-- The first violation of `BOOK_SCHEMA` by an instance, or `none` when
the instance is valid, following draft-07 semantics for the concrete
schema of src/app.py lines 23-50: top-level type `object`; `required`
`title, authors, language, publication_date, sources`; per-property
subschemas; `additionalProperties: false`.  Keywords are checked in
schema order (type, required, properties, additionalProperties). -/
def validationError : Json → Option String
  | .obj fields =>
      firstErr
        [ firstErr (allowedKeys.map (fun k =>
            if (getKey fields k).isSome then none
            else some (k ++ " is a required property"))),
          (match getKey fields "title" with
           | none => none
           | some v => checkTitle v),
          (match getKey fields "authors" with
           | none => none
           | some v => checkAuthors v),
          (match getKey fields "language" with
           | none => none
           | some (.str _) => none
           | some _ => some "language is not of type string"),
          (match getKey fields "publication_date" with
           | none => none
           | some (.str _) => none
           | some _ => some "publication_date is not of type string"),
          (match getKey fields "sources" with
           | none => none
           | some v => checkSources v),
          firstErr (fields.map (fun kv =>
            if allowedKeys.contains kv.1 then none
            else some ("additional properties are not allowed: " ++ kv.1))) ]
  | _ => some "instance is not of type object"

/-- `validate_metadata` (src/app.py lines 135-149): run `jsonschema`
validation of `BOOK_SCHEMA` and return `(True, None)` on success or
`(False, message)` on the first `ValidationError`. -/
def validate_metadata (j : Json) : Bool × Option String :=
  match validationError j with
  | none => (true, none)
  | some m => (false, some m)

/-- Outcome of one parse / normalize / validate attempt.  `fault` marks a
Python code path that raises an uncaught exception (never a tagged
result). -/
inductive PipelineResult where
  | parse_error : String → String → PipelineResult
  | valid : Json → PipelineResult
  | invalid : Json → String → PipelineResult
  | fault : PipelineResult

/-- The call site of src/app.py lines 249-269: `json.loads` wrapped in a
`try/except json.JSONDecodeError` that reports the parser reason and the
offending raw text and stops (so normalization and validation never run
on that attempt); on a successful parse, `normalize_metadata` then
`validate_metadata`, keeping the normalized record in both the valid and
the invalid outcome.  The parse itself is the Python standard library;
its outcome (a JSON value, or a failure reason) is the `parseResult`
argument. -/
def run_pipeline (parseResult : Except String Json) (raw : String) :
    PipelineResult :=
  match parseResult with
  | .error msg => .parse_error raw msg
  | .ok j =>
      match normalize_metadata j with
      | none => .fault
      | some r =>
          match validate_metadata r with
          | (true, _) => .valid r
          | (false, m) => .invalid r (m.getD "")

/-- Model of Python `str.isprintable` for a single character: false
exactly on the C0 and C1 control blocks, `DEL`, and the Unicode line,
paragraph and space separators other than `U+0020` (categories Cc, Zl,
Zp, Zs; the rarer Cf/Cs/Co/Cn code points of the general categories are
out of scope — no claim depends on them). -/
def pyIsPrintable (c : Char) : Bool :=
  let n := c.toNat
  decide (0x20 ≤ n) && !(decide (n = 0x7F)) &&
  !(decide (0x80 ≤ n) && decide (n ≤ 0x9F)) &&
  !(decide (n = 0xA0)) && !(decide (n = 0x1680)) &&
  !(decide (0x2000 ≤ n) && decide (n ≤ 0x200A)) &&
  !(decide (n = 0x2028)) && !(decide (n = 0x2029)) &&
  !(decide (n = 0x202F)) && !(decide (n = 0x205F)) &&
  !(decide (n = 0x3000))

/-- Model of the whitespace set stripped by Python `str.strip()` with no
argument: ASCII whitespace, the C0/C1 separators Python treats as space,
and the Unicode space/line/paragraph separators. -/
def pyIsSpace (c : Char) : Bool :=
  let n := c.toNat
  decide (n = 0x20) || (decide (0x9 ≤ n) && decide (n ≤ 0xD)) ||
  (decide (0x1C ≤ n) && decide (n ≤ 0x1F)) ||
  decide (n = 0x85) || decide (n = 0xA0) || decide (n = 0x1680) ||
  (decide (0x2000 ≤ n) && decide (n ≤ 0x200A)) ||
  decide (n = 0x2028) || decide (n = 0x2029) ||
  decide (n = 0x202F) || decide (n = 0x205F) || decide (n = 0x3000)

/-- Python `s.strip()` on a character list: drop leading and trailing
whitespace. -/
def pyStrip (l : List Char) : List Char :=
  ((l.dropWhile pyIsSpace).reverse.dropWhile pyIsSpace).reverse

/-- `sanitize_input` (src/app.py lines 89-105).  Python checks
`if not text`, which is true for both `None` and the empty string, hence
the `Option String` argument; otherwise it keeps the printable
characters, truncates to `max_length` characters (`text[:max_length]`,
with the non-negative lengths the program uses), and strips leading and
trailing whitespace. -/
def sanitize_input (text : Option String) (max_length : Nat) : String :=
  match text with
  | none => ""
  | some s =>
      if s = "" then ""
      else ⟨pyStrip ((s.data.filter pyIsPrintable).take max_length)⟩

/-- Shape condition under which `normalize_metadata` does not raise: the
argument is a dict and the value at `"title"`, when present, is a dict
(otherwise `metadata_json.get("title", \x7b\x7d).get("english")` raises
`AttributeError`). -/
def titleShapeOk : Json → Bool
  | .obj fields =>
      match getKey fields "title" with
      | none => true
      | some (.obj _) => true
      | some _ => false
  | _ => false

/-- Values that the `authors` / `sources` loop of `normalize_metadata`
keeps (possibly wrapped): dicts, strings and lists.  A null, boolean or
numeric value falls to the `elif not isinstance(value, list)` branch and
is replaced by `[]`. -/
def wrapKeeps : Json → Bool
  | .str _ => true
  | .obj _ => true
  | .arr _ => true
  | _ => false

section Lemmas

theorem getKey_setKey_self (l : List (String × Json)) (k : String) (v : Json) :
    getKey (setKey l k v) k = some v := by
  induction l with
  | nil => simp [setKey, getKey]
  | cons p rest ih =>
      obtain ⟨k1, v1⟩ := p
      by_cases hk : k1 = k
      · subst hk; simp [setKey, getKey]
      · simp [setKey, getKey, hk, ih]

theorem getKey_setKey_ne (l : List (String × Json)) (k k2 : String) (v : Json)
    (h : k2 ≠ k) : getKey (setKey l k v) k2 = getKey l k2 := by
  induction l with
  | nil =>
      simp only [setKey, getKey]
      rw [if_neg (fun hh => h (Eq.symm hh))]
  | cons p rest ih =>
      obtain ⟨k1, v1⟩ := p
      by_cases hk : k1 = k
      · subst hk
        simp only [setKey, if_pos rfl, getKey]
        rw [if_neg (fun hh => h (Eq.symm hh)), if_neg (fun hh => h (Eq.symm hh))]
      · simp only [setKey, if_neg hk, getKey]
        by_cases hk2 : k1 = k2
        · rw [if_pos hk2, if_pos hk2]
        · rw [if_neg hk2, if_neg hk2, ih]

theorem getKey_setKey_none (l : List (String × Json)) (k k2 : String)
    (v w : Json) (hp : getKey l k = some w) (h : getKey l k2 = none) :
    getKey (setKey l k v) k2 = none := by
  have hne : k2 ≠ k := by
    rintro rfl; rw [h] at hp; exact Option.noConfusion hp
  rw [getKey_setKey_ne l k k2 v hne]; exact h

theorem normalizeTitle_of_absent {fields : List (String × Json)}
    (ht : getKey fields "title" = none) : normalizeTitle fields = some fields := by
  unfold normalizeTitle; rw [ht]

theorem normalizeTitle_of_wrap {fields tfields : List (String × Json)}
    {s : String} (ht : getKey fields "title" = some (.obj tfields))
    (he : getKey tfields "english" = some (.str s)) :
    normalizeTitle fields =
      some (setKey fields "title"
        (.obj (setKey tfields "english" (.arr [.str s])))) := by
  simp [normalizeTitle, ht, he]

theorem normalizeTitle_of_not_str {fields tfields : List (String × Json)}
    (ht : getKey fields "title" = some (.obj tfields))
    (he : ∀ s, getKey tfields "english" ≠ some (.str s)) :
    normalizeTitle fields = some fields := by
  cases hE : getKey tfields "english" with
  | none => simp [normalizeTitle, ht, hE]
  | some v =>
      cases v with
      | null => simp [normalizeTitle, ht, hE]
      | bool b => simp [normalizeTitle, ht, hE]
      | num n => simp [normalizeTitle, ht, hE]
      | str s => exact absurd hE (he s)
      | arr xs => simp [normalizeTitle, ht, hE]
      | obj o => simp [normalizeTitle, ht, hE]

theorem normalizeTitle_shape {fields f : List (String × Json)}
    (h : normalizeTitle fields = some f) :
    ∀ v, getKey fields "title" = some v → ∃ tf, v = Json.obj tf := by
  intro v ht
  unfold normalizeTitle at h
  rw [ht] at h
  cases v with
  | null => exact Option.noConfusion h
  | bool b => exact Option.noConfusion h
  | num n => exact Option.noConfusion h
  | str s => exact Option.noConfusion h
  | arr xs => exact Option.noConfusion h
  | obj tf => exact ⟨tf, rfl⟩

theorem normalizeTitle_spec {fields f : List (String × Json)}
    (h : normalizeTitle fields = some f) :
    f = fields ∨
      ∃ tfields s, getKey fields "title" = some (.obj tfields) ∧
        getKey tfields "english" = some (.str s) ∧
        f = setKey fields "title"
          (.obj (setKey tfields "english" (.arr [.str s]))) := by
  cases ht : getKey fields "title" with
  | none =>
      rw [normalizeTitle_of_absent ht] at h
      exact Or.inl (Option.some.inj h).symm
  | some v =>
      rcases normalizeTitle_shape h v ht with ⟨tf, rfl⟩
      cases hE : getKey tf "english" with
      | none =>
          rw [normalizeTitle_of_not_str ht (fun s hs => by
            rw [hE] at hs; exact Option.noConfusion hs)] at h
          exact Or.inl (Option.some.inj h).symm
      | some e =>
          cases e with
          | str s =>
              rw [normalizeTitle_of_wrap ht hE] at h
              exact Or.inr ⟨tf, s, rfl, hE, (Option.some.inj h).symm⟩
          | null =>
              rw [normalizeTitle_of_not_str ht (fun s hs => by
                rw [hE] at hs
                exact Json.noConfusion (Option.some.inj hs))] at h
              exact Or.inl (Option.some.inj h).symm
          | bool b =>
              rw [normalizeTitle_of_not_str ht (fun s hs => by
                rw [hE] at hs
                exact Json.noConfusion (Option.some.inj hs))] at h
              exact Or.inl (Option.some.inj h).symm
          | num n =>
              rw [normalizeTitle_of_not_str ht (fun s hs => by
                rw [hE] at hs
                exact Json.noConfusion (Option.some.inj hs))] at h
              exact Or.inl (Option.some.inj h).symm
          | arr xs =>
              rw [normalizeTitle_of_not_str ht (fun s hs => by
                rw [hE] at hs
                exact Json.noConfusion (Option.some.inj hs))] at h
              exact Or.inl (Option.some.inj h).symm
          | obj o =>
              rw [normalizeTitle_of_not_str ht (fun s hs => by
                rw [hE] at hs
                exact Json.noConfusion (Option.some.inj hs))] at h
              exact Or.inl (Option.some.inj h).symm

theorem getKey_normalizeTitle_ne {fields f : List (String × Json)}
    (h : normalizeTitle fields = some f) (k : String) (hk : k ≠ "title") :
    getKey f k = getKey fields k := by
  rcases normalizeTitle_spec h with rfl | ⟨tf, s, ht, he, rfl⟩
  · rfl
  · exact getKey_setKey_ne fields "title" k _ hk

theorem normArrayField_of_absent {l : List (String × Json)} {k : String}
    (h : getKey l k = none) : normArrayField l k = l := by
  unfold normArrayField; rw [h]

theorem normArrayField_of_arr {l : List (String × Json)} {k : String}
    {xs : List Json} (h : getKey l k = some (.arr xs)) :
    normArrayField l k = l := by
  unfold normArrayField; rw [h]

theorem getKey_normArrayField_ne (l : List (String × Json)) (k k2 : String)
    (h : k2 ≠ k) : getKey (normArrayField l k) k2 = getKey l k2 := by
  unfold normArrayField
  cases hv : getKey l k with
  | none => rfl
  | some v =>
      cases v with
      | null => exact getKey_setKey_ne l k k2 _ h
      | bool b => exact getKey_setKey_ne l k k2 _ h
      | num n => exact getKey_setKey_ne l k k2 _ h
      | str s => exact getKey_setKey_ne l k k2 _ h
      | arr xs => rfl
      | obj o => exact getKey_setKey_ne l k k2 _ h

theorem getKey_normArrayField_str {l : List (String × Json)} {k : String}
    {s : String} (h : getKey l k = some (.str s)) :
    getKey (normArrayField l k) k = some (.arr [.str s]) := by
  unfold normArrayField; rw [h]; exact getKey_setKey_self l k _

theorem getKey_normArrayField_obj {l : List (String × Json)} {k : String}
    {o : List (String × Json)} (h : getKey l k = some (.obj o)) :
    getKey (normArrayField l k) k = some (.arr [.obj o]) := by
  unfold normArrayField; rw [h]; exact getKey_setKey_self l k _

theorem getKey_normArrayField_self (l : List (String × Json)) (k : String) :
    getKey (normArrayField l k) k = none ∨
      ∃ xs, getKey (normArrayField l k) k = some (.arr xs) := by
  unfold normArrayField
  cases hv : getKey l k with
  | none => exact Or.inl hv
  | some v =>
      cases v with
      | null => exact Or.inr ⟨[], getKey_setKey_self l k _⟩
      | bool b => exact Or.inr ⟨[], getKey_setKey_self l k _⟩
      | num n => exact Or.inr ⟨[], getKey_setKey_self l k _⟩
      | str s => exact Or.inr ⟨[.str s], getKey_setKey_self l k _⟩
      | arr xs => exact Or.inr ⟨xs, hv⟩
      | obj o => exact Or.inr ⟨[.obj o], getKey_setKey_self l k _⟩

theorem normArrayField_keeps_none {l : List (String × Json)} {k2 : String}
    (k : String) (h : getKey l k2 = none) :
    getKey (normArrayField l k) k2 = none := by
  unfold normArrayField
  cases hv : getKey l k with
  | none => exact h
  | some v =>
      cases v with
      | null => exact getKey_setKey_none l k k2 _ _ hv h
      | bool b => exact getKey_setKey_none l k k2 _ _ hv h
      | num n => exact getKey_setKey_none l k k2 _ _ hv h
      | str s => exact getKey_setKey_none l k k2 _ _ hv h
      | arr xs => exact h
      | obj o => exact getKey_setKey_none l k k2 _ _ hv h

theorem normArrayField_idem (l : List (String × Json)) (k : String) :
    normArrayField (normArrayField l k) k = normArrayField l k := by
  rcases getKey_normArrayField_self l k with h | ⟨xs, h⟩
  · exact normArrayField_of_absent h
  · exact normArrayField_of_arr h

theorem firstErr_eq_none {l : List (Option String)} (h : firstErr l = none) :
    ∀ x ∈ l, x = none := by
  induction l with
  | nil => intro x hx; exact absurd hx (List.not_mem_nil x)
  | cons a rest ih =>
      intro x hx
      cases a with
      | none =>
          rcases List.mem_cons.mp hx with rfl | hx2
          · rfl
          · exact ih h x hx2
      | some e => exact Option.noConfusion h

theorem normalize_metadata_obj {fields : List (String × Json)} {r : Json}
    (h : normalize_metadata (.obj fields) = some r) :
    ∃ f, normalizeTitle fields = some f ∧
      r = .obj (normArrayField (normArrayField f "authors") "sources") := by
  simp only [normalize_metadata] at h
  cases hf : normalizeTitle fields with
  | none => rw [hf] at h; exact Option.noConfusion h
  | some f =>
      rw [hf] at h
      exact ⟨f, rfl, (Option.some.inj h).symm⟩

theorem normalizeTitle_result_shape {fields f : List (String × Json)}
    (h : normalizeTitle fields = some f) :
    ∀ v, getKey f "title" = some v → ∃ tf, v = Json.obj tf := by
  intro v hv
  rcases normalizeTitle_spec h with rfl | ⟨tf, s, ht, he, rfl⟩
  · exact normalizeTitle_shape h v hv
  · rw [getKey_setKey_self] at hv
    exact ⟨setKey tf "english" (.arr [.str s]), (Option.some.inj hv).symm⟩

theorem normalizeTitle_result_not_str {fields f : List (String × Json)}
    (h : normalizeTitle fields = some f) :
    ∀ tf s, getKey f "title" = some (.obj tf) →
      getKey tf "english" ≠ some (.str s) := by
  intro tf s hft hes
  rcases normalizeTitle_spec h with heq | ⟨tf0, s0, ht, he, heq⟩
  · -- no rewrite happened; but then the wrap branch would have fired on
    -- this very title object, so its english cannot be a string
    have hft2 : getKey fields "title" = some (Json.obj tf) := by
      rw [← heq]; exact hft
    have hw := normalizeTitle_of_wrap hft2 hes
    rw [h] at hw
    have h2 : f = setKey fields "title"
        (Json.obj (setKey tf "english" (Json.arr [Json.str s]))) :=
      Option.some.inj hw
    have h3 : getKey f "title" =
        some (Json.obj (setKey tf "english" (Json.arr [Json.str s]))) := by
      rw [h2]; exact getKey_setKey_self fields "title" _
    rw [hft] at h3
    have h4 : tf = setKey tf "english" (Json.arr [Json.str s]) :=
      Json.obj.inj (Option.some.inj h3)
    have h5 := getKey_setKey_self tf "english" (Json.arr [Json.str s])
    rw [← h4] at h5
    rw [hes] at h5
    exact Json.noConfusion (Option.some.inj h5)
  · rw [heq, getKey_setKey_self] at hft
    have h4 : tf = setKey tf0 "english" (Json.arr [Json.str s0]) :=
      (Json.obj.inj (Option.some.inj hft)).symm
    have h5 := getKey_setKey_self tf0 "english" (Json.arr [Json.str s0])
    rw [← h4] at h5
    rw [hes] at h5
    exact Json.noConfusion (Option.some.inj h5)

theorem normalizeTitle_of_same_shape {l : List (String × Json)}
    (hshape : ∀ v, getKey l "title" = some v → ∃ tf, v = Json.obj tf)
    (hnstr : ∀ tf s, getKey l "title" = some (.obj tf) →
      getKey tf "english" ≠ some (.str s)) :
    normalizeTitle l = some l := by
  cases ht : getKey l "title" with
  | none => exact normalizeTitle_of_absent ht
  | some v =>
      rcases hshape v ht with ⟨tf, rfl⟩
      exact normalizeTitle_of_not_str ht (fun s hs => hnstr tf s ht hs)

theorem titleShapeOk_normalizeTitle {fields : List (String × Json)}
    (h : titleShapeOk (.obj fields) = true) :
    ∃ f, normalizeTitle fields = some f := by
  cases ht : getKey fields "title" with
  | none => exact ⟨fields, normalizeTitle_of_absent ht⟩
  | some v =>
      cases v with
      | null => simp [titleShapeOk, ht] at h
      | bool b => simp [titleShapeOk, ht] at h
      | num n => simp [titleShapeOk, ht] at h
      | str s => simp [titleShapeOk, ht] at h
      | arr xs => simp [titleShapeOk, ht] at h
      | obj tf =>
          cases hE : getKey tf "english" with
          | none =>
              exact ⟨fields, normalizeTitle_of_not_str ht (fun s hs => by
                rw [hE] at hs; exact Option.noConfusion hs)⟩
          | some e =>
              cases e with
              | str s => exact ⟨_, normalizeTitle_of_wrap ht hE⟩
              | null =>
                  exact ⟨fields, normalizeTitle_of_not_str ht (fun s hs => by
                    rw [hE] at hs
                    exact Json.noConfusion (Option.some.inj hs))⟩
              | bool b =>
                  exact ⟨fields, normalizeTitle_of_not_str ht (fun s hs => by
                    rw [hE] at hs
                    exact Json.noConfusion (Option.some.inj hs))⟩
              | num n =>
                  exact ⟨fields, normalizeTitle_of_not_str ht (fun s hs => by
                    rw [hE] at hs
                    exact Json.noConfusion (Option.some.inj hs))⟩
              | arr xs =>
                  exact ⟨fields, normalizeTitle_of_not_str ht (fun s hs => by
                    rw [hE] at hs
                    exact Json.noConfusion (Option.some.inj hs))⟩
              | obj o =>
                  exact ⟨fields, normalizeTitle_of_not_str ht (fun s hs => by
                    rw [hE] at hs
                    exact Json.noConfusion (Option.some.inj hs))⟩

theorem english_str_cases (tf : List (String × Json)) :
    (∃ s, getKey tf "english" = some (.str s)) ∨
      (∀ s, getKey tf "english" ≠ some (.str s)) := by
  cases hE : getKey tf "english" with
  | none => exact Or.inr (fun s hs => Option.noConfusion hs)
  | some e =>
      cases e with
      | str s => exact Or.inl ⟨s, rfl⟩
      | null =>
          exact Or.inr (fun s hs => Json.noConfusion (Option.some.inj hs))
      | bool b =>
          exact Or.inr (fun s hs => Json.noConfusion (Option.some.inj hs))
      | num n =>
          exact Or.inr (fun s hs => Json.noConfusion (Option.some.inj hs))
      | arr xs =>
          exact Or.inr (fun s hs => Json.noConfusion (Option.some.inj hs))
      | obj o =>
          exact Or.inr (fun s hs => Json.noConfusion (Option.some.inj hs))

theorem firstErr_cons_none {x : Option String} {rest : List (Option String)}
    (h : firstErr (x :: rest) = none) : x = none ∧ firstErr rest = none := by
  cases x with
  | none => exact ⟨rfl, h⟩
  | some e => exact Option.noConfusion h

theorem isSome_of_requiredErr_none {o : Option Json} {e : String}
    (h : (if o.isSome then none else some e) = none) : o.isSome = true := by
  cases ho : o.isSome
  · rw [ho] at h; simp at h
  · rfl

end Lemmas

section Claims

/-- C1: for every array-typed field of the schema, a parsed record whose
`title.english` is a string `x`, or whose `authors` / `sources` is a
string or a single object `x`, is normalized so that the field becomes
the one-element array `[x]`.  The hypothesis `titleShapeOk` is exactly
the shape on which `normalize_metadata` runs without raising. -/
theorem c1_scalar_fields_become_singletons (fields : List (String × Json))
    (hT : titleShapeOk (.obj fields) = true) :
    ∃ g, normalize_metadata (.obj fields) = some (.obj g) ∧
      (∀ tf s, getKey fields "title" = some (.obj tf) →
        getKey tf "english" = some (.str s) →
        ∃ tf2, getKey g "title" = some (.obj tf2) ∧
          getKey tf2 "english" = some (.arr [.str s])) ∧
      (∀ s, getKey fields "authors" = some (.str s) →
        getKey g "authors" = some (.arr [.str s])) ∧
      (∀ o, getKey fields "authors" = some (.obj o) →
        getKey g "authors" = some (.arr [.obj o])) ∧
      (∀ s, getKey fields "sources" = some (.str s) →
        getKey g "sources" = some (.arr [.str s])) ∧
      (∀ o, getKey fields "sources" = some (.obj o) →
        getKey g "sources" = some (.arr [.obj o])) := by
  obtain ⟨f, hf⟩ := titleShapeOk_normalizeTitle hT
  refine ⟨normArrayField (normArrayField f "authors") "sources",
    by simp [normalize_metadata, hf], ?_, ?_, ?_, ?_, ?_⟩
  · intro tf s ht he
    have hw := normalizeTitle_of_wrap ht he
    rw [hf] at hw
    have hfeq : f = setKey fields "title"
        (Json.obj (setKey tf "english" (Json.arr [Json.str s]))) :=
      Option.some.inj hw
    refine ⟨setKey tf "english" (Json.arr [Json.str s]), ?_,
      getKey_setKey_self tf "english" _⟩
    rw [getKey_normArrayField_ne _ "sources" "title" (by decide),
        getKey_normArrayField_ne _ "authors" "title" (by decide), hfeq]
    exact getKey_setKey_self fields "title" _
  · intro s ha
    have ha2 : getKey f "authors" = some (Json.str s) := by
      rw [getKey_normalizeTitle_ne hf "authors" (by decide)]; exact ha
    rw [getKey_normArrayField_ne _ "sources" "authors" (by decide)]
    exact getKey_normArrayField_str ha2
  · intro o ha
    have ha2 : getKey f "authors" = some (Json.obj o) := by
      rw [getKey_normalizeTitle_ne hf "authors" (by decide)]; exact ha
    rw [getKey_normArrayField_ne _ "sources" "authors" (by decide)]
    exact getKey_normArrayField_obj ha2
  · intro s hs
    have hs2 : getKey (normArrayField f "authors") "sources" =
        some (Json.str s) := by
      rw [getKey_normArrayField_ne _ "authors" "sources" (by decide),
          getKey_normalizeTitle_ne hf "sources" (by decide)]
      exact hs
    exact getKey_normArrayField_str hs2
  · intro o hs
    have hs2 : getKey (normArrayField f "authors") "sources" =
        some (Json.obj o) := by
      rw [getKey_normArrayField_ne _ "authors" "sources" (by decide),
          getKey_normalizeTitle_ne hf "sources" (by decide)]
      exact hs
    exact getKey_normArrayField_obj hs2

/-- Witness for C1 on the scenario record of the spec: `title.english`,
`authors` and `sources` are scalars and become one-element arrays. -/
theorem c1_scalar_fields_become_singletons_witness :
    titleShapeOk (Json.obj
      [("title", Json.obj [("original", Json.str "Sapiens"),
        ("english", Json.str "Sapiens")]),
       ("authors", Json.obj [("full_name", Json.str "Yuval Noah Harari")]),
       ("language", Json.str "Hebrew"),
       ("publication_date", Json.str "2011"),
       ("sources", Json.str "https:example.com")]) = true ∧
    ∃ g, normalize_metadata (Json.obj
      [("title", Json.obj [("original", Json.str "Sapiens"),
        ("english", Json.str "Sapiens")]),
       ("authors", Json.obj [("full_name", Json.str "Yuval Noah Harari")]),
       ("language", Json.str "Hebrew"),
       ("publication_date", Json.str "2011"),
       ("sources", Json.str "https:example.com")]) = some (Json.obj g) ∧
      getKey g "authors" =
        some (Json.arr [Json.obj [("full_name", Json.str "Yuval Noah Harari")]]) ∧
      getKey g "sources" = some (Json.arr [Json.str "https:example.com"]) := by
  refine ⟨rfl, ?_⟩
  obtain ⟨g, hg, _, _, hao, hss, _⟩ :=
    c1_scalar_fields_become_singletons
      [("title", Json.obj [("original", Json.str "Sapiens"),
        ("english", Json.str "Sapiens")]),
       ("authors", Json.obj [("full_name", Json.str "Yuval Noah Harari")]),
       ("language", Json.str "Hebrew"),
       ("publication_date", Json.str "2011"),
       ("sources", Json.str "https:example.com")] rfl
  exact ⟨g, hg, hao _ rfl, hss _ rfl⟩

/-- C2 counterexample: a successfully parsed input whose `"title"` value
is a string makes `normalize_metadata` call `.get` on a Python `str`,
raising an uncaught `AttributeError` — the pipeline does not return a
tagged result on this input. -/
theorem c2_counterexample :
    run_pipeline (Except.ok (Json.obj [("title", Json.str "x")])) "raw" =
      PipelineResult.fault := rfl

/-- C2 amended: on a parse failure the pipeline returns `parse_error`,
and on a parsed input that is a JSON object whose `title` member, when
present, is itself an object, it never faults; inputs outside that shape
(a non-object record, or a non-object `title`) raise an uncaught
`AttributeError` instead of returning a tagged result. -/
theorem c2_no_fault_on_safe_shapes (j : Json) (raw : String)
    (h : titleShapeOk j = true) :
    run_pipeline (Except.ok j) raw ≠ PipelineResult.fault ∧
    (∀ msg, run_pipeline (Except.error msg) raw =
      PipelineResult.parse_error raw msg) := by
  refine ⟨?_, fun msg => rfl⟩
  cases j with
  | null => simp [titleShapeOk] at h
  | bool b => simp [titleShapeOk] at h
  | num n => simp [titleShapeOk] at h
  | str s => simp [titleShapeOk] at h
  | arr xs => simp [titleShapeOk] at h
  | obj fields =>
      obtain ⟨f, hf⟩ := titleShapeOk_normalizeTitle h
      simp only [run_pipeline, normalize_metadata, hf, Option.map_some']
      rcases hv : validate_metadata
        (Json.obj (normArrayField (normArrayField f "authors") "sources"))
        with ⟨b, m⟩
      cases b
      · exact fun hc => PipelineResult.noConfusion hc
      · exact fun hc => PipelineResult.noConfusion hc

/-- Witness for C2 amended at a concrete safe input. -/
theorem c2_no_fault_on_safe_shapes_witness :
    titleShapeOk (Json.obj [("language", Json.str "fr")]) = true ∧
    run_pipeline (Except.ok (Json.obj [("language", Json.str "fr")])) "x" ≠
      PipelineResult.fault :=
  ⟨rfl, (c2_no_fault_on_safe_shapes (Json.obj [("language", Json.str "fr")])
    "x" rfl).1⟩

/-- C3 counterexample: `title.english = ["a", "a", "b"]` is left exactly
as it is — `normalize_metadata` performs no deduplication, so the claimed
output `["a", "b"]` differs from the actual output `["a", "a", "b"]`. -/
theorem c3_counterexample :
    normalize_metadata (Json.obj [("title", Json.obj [("english",
        Json.arr [Json.str "a", Json.str "a", Json.str "b"])])]) =
      some (Json.obj [("title", Json.obj [("english",
        Json.arr [Json.str "a", Json.str "a", Json.str "b"])])]) ∧
    Json.arr [Json.str "a", Json.str "a", Json.str "b"] ≠
      Json.arr [Json.str "a", Json.str "b"] :=
  ⟨rfl, by simp⟩

/-- C3 amended: when `title.english` is already an array,
`normalize_metadata` leaves the whole title object (duplicates included)
unchanged; this variant does not deduplicate. -/
theorem c3_array_english_unchanged (fields tf : List (String × Json))
    (xs : List Json)
    (ht : getKey fields "title" = some (.obj tf))
    (he : getKey tf "english" = some (.arr xs)) :
    ∃ g, normalize_metadata (.obj fields) = some (.obj g) ∧
      getKey g "title" = some (.obj tf) := by
  have hnt : normalizeTitle fields = some fields :=
    normalizeTitle_of_not_str ht (fun s hs => by
      rw [he] at hs; exact Json.noConfusion (Option.some.inj hs))
  refine ⟨normArrayField (normArrayField fields "authors") "sources",
    by simp [normalize_metadata, hnt], ?_⟩
  rw [getKey_normArrayField_ne _ "sources" "title" (by decide),
      getKey_normArrayField_ne _ "authors" "title" (by decide)]
  exact ht

/-- Witness for C3 amended: the duplicate list `["a", "a", "b"]` stays
`["a", "a", "b"]`. -/
theorem c3_array_english_unchanged_witness :
    ∃ g, normalize_metadata (Json.obj [("title", Json.obj [("english",
        Json.arr [Json.str "a", Json.str "a", Json.str "b"])])]) =
      some (Json.obj g) ∧
    getKey g "title" = some (Json.obj [("english",
        Json.arr [Json.str "a", Json.str "a", Json.str "b"])]) :=
  c3_array_english_unchanged _ _ _ rfl rfl

/-- C4: a parse failure makes the pipeline return `parse_error` carrying
the offending raw text verbatim together with the parser failure reason;
it is never a valid, invalid or faulting outcome, so normalization and
validation do not run on that attempt. -/
theorem c4_parse_error_is_terminal (raw msg : String) :
    run_pipeline (Except.error msg) raw = PipelineResult.parse_error raw msg ∧
    (∀ r, run_pipeline (Except.error msg) raw ≠ PipelineResult.valid r) ∧
    (∀ r m, run_pipeline (Except.error msg) raw ≠ PipelineResult.invalid r m) ∧
    run_pipeline (Except.error msg) raw ≠ PipelineResult.fault :=
  ⟨rfl, fun _ hc => PipelineResult.noConfusion hc,
    fun _ _ hc => PipelineResult.noConfusion hc,
    fun hc => PipelineResult.noConfusion hc⟩

/-- C6: normalization is idempotent — normalizing an already normalized
record changes nothing (on every record where the first normalization
returns at all). -/
theorem c6_normalize_idempotent (j r : Json)
    (h : normalize_metadata j = some r) :
    normalize_metadata r = some r := by
  cases j with
  | null => simp [normalize_metadata] at h
  | bool b => simp [normalize_metadata] at h
  | num n => simp [normalize_metadata] at h
  | str s => simp [normalize_metadata] at h
  | arr xs => simp [normalize_metadata] at h
  | obj fields =>
      rcases normalize_metadata_obj h with ⟨f, hf, rfl⟩
      have hshape := normalizeTitle_result_shape hf
      have hnstr := normalizeTitle_result_not_str hf
      have htg : getKey (normArrayField (normArrayField f "authors")
          "sources") "title" = getKey f "title" := by
        rw [getKey_normArrayField_ne _ "sources" "title" (by decide),
            getKey_normArrayField_ne _ "authors" "title" (by decide)]
      have hT : normalizeTitle
          (normArrayField (normArrayField f "authors") "sources") =
          some (normArrayField (normArrayField f "authors") "sources") := by
        apply normalizeTitle_of_same_shape
        · intro v hv; rw [htg] at hv; exact hshape v hv
        · intro tf s hv; rw [htg] at hv; exact hnstr tf s hv
      have hA : normArrayField
          (normArrayField (normArrayField f "authors") "sources") "authors" =
          normArrayField (normArrayField f "authors") "sources" := by
        have hga : getKey (normArrayField (normArrayField f "authors")
            "sources") "authors" =
            getKey (normArrayField f "authors") "authors" :=
          getKey_normArrayField_ne _ "sources" "authors" (by decide)
        rcases getKey_normArrayField_self f "authors" with h0 | ⟨xs, h0⟩
        · exact normArrayField_of_absent (by rw [hga]; exact h0)
        · exact normArrayField_of_arr (by rw [hga]; exact h0)
      have hS : normArrayField
          (normArrayField (normArrayField f "authors") "sources") "sources" =
          normArrayField (normArrayField f "authors") "sources" := by
        rcases getKey_normArrayField_self (normArrayField f "authors")
          "sources" with h0 | ⟨xs, h0⟩
        · exact normArrayField_of_absent h0
        · exact normArrayField_of_arr h0
      simp only [normalize_metadata, hT, Option.map_some']
      rw [hA, hS]

/-- Witness for C6 at the normalized form of the spec scenario record. -/
theorem c6_normalize_idempotent_witness :
    normalize_metadata (Json.obj
      [("title", Json.obj [("original", Json.str "Sapiens"),
        ("english", Json.arr [Json.str "Sapiens"])]),
       ("authors", Json.arr [Json.obj [("full_name", Json.str "Y")]]),
       ("sources", Json.arr [Json.str "u"])]) =
      some (Json.obj
      [("title", Json.obj [("original", Json.str "Sapiens"),
        ("english", Json.arr [Json.str "Sapiens"])]),
       ("authors", Json.arr [Json.obj [("full_name", Json.str "Y")]]),
       ("sources", Json.arr [Json.str "u"])]) :=
  c6_normalize_idempotent (Json.obj
      [("title", Json.obj [("original", Json.str "Sapiens"),
        ("english", Json.str "Sapiens")]),
       ("authors", Json.obj [("full_name", Json.str "Y")]),
       ("sources", Json.str "u")]) _ rfl

/-- C5: a parsed record whose normalization violates the schema yields
the `invalid` outcome carrying the human-readable violation message, and
the normalized record itself is still returned rather than discarded; on
the spec example (required `authors` absent, everything else fine) the
message names `authors`. -/
theorem c5_invalid_returns_record (j r : Json) (msg raw : String)
    (hn : normalize_metadata j = some r)
    (hv : validationError r = some msg) :
    run_pipeline (Except.ok j) raw = PipelineResult.invalid r msg ∧
    validationError (Json.obj
      [("title", Json.obj [("original", Json.str "T")]),
       ("language", Json.str "L"), ("publication_date", Json.str "2011"),
       ("sources", Json.arr [])]) =
      some "authors is a required property" := by
  refine ⟨?_, rfl⟩
  simp only [run_pipeline, hn, validate_metadata, hv, Option.getD_some]

/-- Witness for C5: a record missing `authors` flows through the
pipeline into the `invalid` outcome, record kept, message naming
`authors`. -/
theorem c5_invalid_returns_record_witness :
    run_pipeline (Except.ok (Json.obj
      [("title", Json.obj [("original", Json.str "T")]),
       ("language", Json.str "L"), ("publication_date", Json.str "2011"),
       ("sources", Json.arr [])])) "raw" =
      PipelineResult.invalid (Json.obj
        [("title", Json.obj [("original", Json.str "T")]),
         ("language", Json.str "L"), ("publication_date", Json.str "2011"),
         ("sources", Json.arr [])]) "authors is a required property" :=
  (c5_invalid_returns_record
    (Json.obj [("title", Json.obj [("original", Json.str "T")]),
      ("language", Json.str "L"), ("publication_date", Json.str "2011"),
      ("sources", Json.arr [])])
    (Json.obj [("title", Json.obj [("original", Json.str "T")]),
      ("language", Json.str "L"), ("publication_date", Json.str "2011"),
      ("sources", Json.arr [])])
    "authors is a required property" "raw" rfl rfl).1

/-- C7: a record that already satisfies the schema is left unchanged by
normalization and the pipeline reports it `valid`. -/
theorem c7_round_trip (j : Json) (raw : String)
    (h : validationError j = none) :
    normalize_metadata j = some j ∧
    run_pipeline (Except.ok j) raw = PipelineResult.valid j := by
  have hv0 := h
  cases j with
  | null => simp [validationError] at h
  | bool b => simp [validationError] at h
  | num n => simp [validationError] at h
  | str s => simp [validationError] at h
  | arr xs => simp [validationError] at h
  | obj fields =>
      simp only [validationError] at h
      obtain ⟨hreq, h⟩ := firstErr_cons_none h
      obtain ⟨htitle, h⟩ := firstErr_cons_none h
      obtain ⟨hauth, h⟩ := firstErr_cons_none h
      obtain ⟨hlang, h⟩ := firstErr_cons_none h
      obtain ⟨hpub, h⟩ := firstErr_cons_none h
      obtain ⟨hsrc, h⟩ := firstErr_cons_none h
      simp only [allowedKeys, List.map_cons, List.map_nil] at hreq
      obtain ⟨hrt, hreq⟩ := firstErr_cons_none hreq
      obtain ⟨hra, hreq⟩ := firstErr_cons_none hreq
      obtain ⟨hrl, hreq⟩ := firstErr_cons_none hreq
      obtain ⟨hrp, hreq⟩ := firstErr_cons_none hreq
      obtain ⟨hrs, _⟩ := firstErr_cons_none hreq
      have hts := isSome_of_requiredErr_none hrt
      have has := isSome_of_requiredErr_none hra
      have hss := isSome_of_requiredErr_none hrs
      obtain ⟨tv, htv⟩ := Option.isSome_iff_exists.mp hts
      have hct : checkTitle tv = none := by rw [htv] at htitle; exact htitle
      obtain ⟨av, hav⟩ := Option.isSome_iff_exists.mp has
      have hca : checkAuthors av = none := by rw [hav] at hauth; exact hauth
      obtain ⟨sv, hsv⟩ := Option.isSome_iff_exists.mp hss
      have hcs : checkSources sv = none := by rw [hsv] at hsrc; exact hsrc
      have hnt : normalizeTitle fields = some fields := by
        cases tv with
        | null => simp [checkTitle] at hct
        | bool b => simp [checkTitle] at hct
        | num n => simp [checkTitle] at hct
        | str s => simp [checkTitle] at hct
        | arr xs => simp [checkTitle] at hct
        | obj tf =>
            simp only [checkTitle] at hct
            obtain ⟨_, hct⟩ := firstErr_cons_none hct
            obtain ⟨heng, _⟩ := firstErr_cons_none hct
            refine normalizeTitle_of_not_str htv (fun s hs => ?_)
            rw [hs] at heng
            exact Option.noConfusion heng
      have hnA : normArrayField fields "authors" = fields := by
        cases av with
        | null => simp [checkAuthors] at hca
        | bool b => simp [checkAuthors] at hca
        | num n => simp [checkAuthors] at hca
        | str s => simp [checkAuthors] at hca
        | obj o => simp [checkAuthors] at hca
        | arr xs => exact normArrayField_of_arr hav
      have hnS : normArrayField fields "sources" = fields := by
        cases sv with
        | null => simp [checkSources] at hcs
        | bool b => simp [checkSources] at hcs
        | num n => simp [checkSources] at hcs
        | str s => simp [checkSources] at hcs
        | obj o => simp [checkSources] at hcs
        | arr xs => exact normArrayField_of_arr hsv
      have hn : normalize_metadata (Json.obj fields) =
          some (Json.obj fields) := by
        simp only [normalize_metadata, hnt, Option.map_some']
        rw [hnA, hnS]
      refine ⟨hn, ?_⟩
      simp only [run_pipeline, hn, validate_metadata, hv0]

/-- Witness for C7: a concrete schema-conformant record passes through
unchanged and valid. -/
theorem c7_round_trip_witness :
    validationError (Json.obj
      [("title", Json.obj [("original", Json.str "Sapiens")]),
       ("authors", Json.arr [Json.obj [("full_name", Json.str "Y")]]),
       ("language", Json.str "Hebrew"),
       ("publication_date", Json.str "2011"),
       ("sources", Json.arr [Json.str "u"])]) = none ∧
    normalize_metadata (Json.obj
      [("title", Json.obj [("original", Json.str "Sapiens")]),
       ("authors", Json.arr [Json.obj [("full_name", Json.str "Y")]]),
       ("language", Json.str "Hebrew"),
       ("publication_date", Json.str "2011"),
       ("sources", Json.arr [Json.str "u"])]) =
      some (Json.obj
      [("title", Json.obj [("original", Json.str "Sapiens")]),
       ("authors", Json.arr [Json.obj [("full_name", Json.str "Y")]]),
       ("language", Json.str "Hebrew"),
       ("publication_date", Json.str "2011"),
       ("sources", Json.arr [Json.str "u"])]) ∧
    run_pipeline (Except.ok (Json.obj
      [("title", Json.obj [("original", Json.str "Sapiens")]),
       ("authors", Json.arr [Json.obj [("full_name", Json.str "Y")]]),
       ("language", Json.str "Hebrew"),
       ("publication_date", Json.str "2011"),
       ("sources", Json.arr [Json.str "u"])])) "x" =
      PipelineResult.valid (Json.obj
      [("title", Json.obj [("original", Json.str "Sapiens")]),
       ("authors", Json.arr [Json.obj [("full_name", Json.str "Y")]]),
       ("language", Json.str "Hebrew"),
       ("publication_date", Json.str "2011"),
       ("sources", Json.arr [Json.str "u"])]) :=
  ⟨rfl,
    (c7_round_trip (Json.obj
      [("title", Json.obj [("original", Json.str "Sapiens")]),
       ("authors", Json.arr [Json.obj [("full_name", Json.str "Y")]]),
       ("language", Json.str "Hebrew"),
       ("publication_date", Json.str "2011"),
       ("sources", Json.arr [Json.str "u"])]) "x" rfl).1,
    (c7_round_trip (Json.obj
      [("title", Json.obj [("original", Json.str "Sapiens")]),
       ("authors", Json.arr [Json.obj [("full_name", Json.str "Y")]]),
       ("language", Json.str "Hebrew"),
       ("publication_date", Json.str "2011"),
       ("sources", Json.arr [Json.str "u"])]) "x" rfl).2⟩

/-- C8: normalization invents no field — every top-level key absent from
the input stays absent (in particular `authors` and `sources` are not
defaulted to an empty array when missing), and a key absent from the
`title` object (such as `english`) stays absent there too. -/
theorem c8_absent_fields_stay_absent (fields g : List (String × Json))
    (h : normalize_metadata (.obj fields) = some (.obj g)) :
    (∀ k, getKey fields k = none → getKey g k = none) ∧
    (∀ tf k, getKey fields "title" = some (.obj tf) → getKey tf k = none →
      ∃ tf2, getKey g "title" = some (.obj tf2) ∧ getKey tf2 k = none) := by
  rcases normalize_metadata_obj h with ⟨f, hf, heq⟩
  have hg : g = normArrayField (normArrayField f "authors") "sources" :=
    Json.obj.inj heq
  subst hg
  constructor
  · intro k hk
    have hfk : getKey f k = none := by
      rcases normalizeTitle_spec hf with heq2 | ⟨tf0, s0, ht0, he0, heq2⟩
      · rw [heq2]; exact hk
      · rw [heq2]; exact getKey_setKey_none fields "title" k _ _ ht0 hk
    exact normArrayField_keeps_none "sources"
      (normArrayField_keeps_none "authors" hfk)
  · intro tf k ht hk
    rcases english_str_cases tf with ⟨s, he⟩ | hnot
    · have hw := normalizeTitle_of_wrap ht he
      rw [hf] at hw
      have hfeq : f = setKey fields "title"
          (Json.obj (setKey tf "english" (Json.arr [Json.str s]))) :=
        Option.some.inj hw
      refine ⟨setKey tf "english" (Json.arr [Json.str s]), ?_, ?_⟩
      · rw [getKey_normArrayField_ne _ "sources" "title" (by decide),
            getKey_normArrayField_ne _ "authors" "title" (by decide), hfeq]
        exact getKey_setKey_self fields "title" _
      · have hke : k ≠ "english" := by
          rintro rfl; rw [hk] at he; exact Option.noConfusion he
        rw [getKey_setKey_ne tf "english" k _ hke]
        exact hk
    · have hfeq : f = fields := by
        have h2 := normalizeTitle_of_not_str ht hnot
        rw [hf] at h2
        exact Option.some.inj h2
      refine ⟨tf, ?_, hk⟩
      rw [getKey_normArrayField_ne _ "sources" "title" (by decide),
          getKey_normArrayField_ne _ "authors" "title" (by decide), hfeq]
      exact ht

/-- Witness for C8: a record with only a title keeps `authors`,
`sources` and `title.english` absent after normalization. -/
theorem c8_absent_fields_stay_absent_witness :
    getKey (normArrayField (normArrayField
      [("title", Json.obj [("original", Json.str "T")])] "authors")
      "sources") "authors" = none ∧
    ∃ tf2, getKey (normArrayField (normArrayField
      [("title", Json.obj [("original", Json.str "T")])] "authors")
      "sources") "title" = some (Json.obj tf2) ∧
      getKey tf2 "english" = none :=
  ⟨(c8_absent_fields_stay_absent
      [("title", Json.obj [("original", Json.str "T")])]
      (normArrayField (normArrayField
        [("title", Json.obj [("original", Json.str "T")])] "authors")
        "sources") rfl).1 "authors" rfl,
   (c8_absent_fields_stay_absent
      [("title", Json.obj [("original", Json.str "T")])]
      (normArrayField (normArrayField
        [("title", Json.obj [("original", Json.str "T")])] "authors")
        "sources") rfl).2 [("original", Json.str "T")] "english" rfl rfl⟩

/-- C9 counterexample: the value `42` returned at `authors` is present in
the parsed record but `normalize_metadata` replaces it by the empty
array, so it is silently dropped — it survives neither as itself nor
wrapped in a one-element array. -/
theorem c9_counterexample :
    normalize_metadata (Json.obj [("authors", Json.num 42)]) =
      some (Json.obj [("authors", Json.arr [])]) ∧
    Json.arr ([] : List Json) ≠ Json.num 42 ∧
    Json.arr ([] : List Json) ≠ Json.arr [Json.num 42] :=
  ⟨rfl, by simp, by simp⟩

/-- C9 amended: every value present in the input record survives
normalization, either unchanged or wrapped into a one-element array —
provided the values of `authors` and `sources`, when present, are
strings, objects or arrays.  (A null, boolean or numeric value of
`authors` / `sources` is instead replaced by the empty array, dropping
it, as the counterexample shows.) -/
theorem c9_present_values_survive (fields g : List (String × Json))
    (h : normalize_metadata (.obj fields) = some (.obj g))
    (hA : ∀ v, getKey fields "authors" = some v → wrapKeeps v = true)
    (hS : ∀ v, getKey fields "sources" = some v → wrapKeeps v = true) :
    (∀ k v, k ≠ "title" → getKey fields k = some v →
      getKey g k = some v ∨ getKey g k = some (.arr [v])) ∧
    (∀ tf, getKey fields "title" = some (.obj tf) →
      ∃ tf2, getKey g "title" = some (.obj tf2) ∧
        ∀ k v, getKey tf k = some v →
          getKey tf2 k = some v ∨ getKey tf2 k = some (.arr [v])) := by
  rcases normalize_metadata_obj h with ⟨f, hf, heq⟩
  have hg : g = normArrayField (normArrayField f "authors") "sources" :=
    Json.obj.inj heq
  subst hg
  constructor
  · intro k v hk hv
    have hfv : getKey f k = some v := by
      rw [getKey_normalizeTitle_ne hf k hk]; exact hv
    by_cases hka : k = "authors"
    · subst hka
      have hw := hA v hv
      cases v with
      | str s =>
          right
          rw [getKey_normArrayField_ne _ "sources" "authors" (by decide)]
          exact getKey_normArrayField_str hfv
      | obj o =>
          right
          rw [getKey_normArrayField_ne _ "sources" "authors" (by decide)]
          exact getKey_normArrayField_obj hfv
      | arr xs =>
          left
          rw [getKey_normArrayField_ne _ "sources" "authors" (by decide),
              normArrayField_of_arr hfv]
          exact hfv
      | null => simp [wrapKeeps] at hw
      | bool b => simp [wrapKeeps] at hw
      | num n => simp [wrapKeeps] at hw
    · by_cases hks : k = "sources"
      · subst hks
        have hsv2 : getKey (normArrayField f "authors") "sources" =
            some v := by
          rw [getKey_normArrayField_ne _ "authors" "sources" (by decide)]
          exact hfv
        have hw := hS v hv
        cases v with
        | str s => right; exact getKey_normArrayField_str hsv2
        | obj o => right; exact getKey_normArrayField_obj hsv2
        | arr xs => left; rw [normArrayField_of_arr hsv2]; exact hsv2
        | null => simp [wrapKeeps] at hw
        | bool b => simp [wrapKeeps] at hw
        | num n => simp [wrapKeeps] at hw
      · left
        rw [getKey_normArrayField_ne _ "sources" k hks,
            getKey_normArrayField_ne _ "authors" k hka]
        exact hfv
  · intro tf ht
    rcases english_str_cases tf with ⟨s, he⟩ | hnot
    · have hw := normalizeTitle_of_wrap ht he
      rw [hf] at hw
      have hfeq : f = setKey fields "title"
          (Json.obj (setKey tf "english" (Json.arr [Json.str s]))) :=
        Option.some.inj hw
      refine ⟨setKey tf "english" (Json.arr [Json.str s]), ?_, ?_⟩
      · rw [getKey_normArrayField_ne _ "sources" "title" (by decide),
            getKey_normArrayField_ne _ "authors" "title" (by decide), hfeq]
        exact getKey_setKey_self fields "title" _
      · intro k v hkv
        by_cases hke : k = "english"
        · subst hke
          right
          rw [hkv] at he
          have hv2 : v = Json.str s := Option.some.inj he
          subst hv2
          exact getKey_setKey_self tf "english" _
        · left
          rw [getKey_setKey_ne tf "english" k _ hke]
          exact hkv
    · have hfeq : f = fields := by
        have h2 := normalizeTitle_of_not_str ht hnot
        rw [hf] at h2
        exact Option.some.inj h2
      refine ⟨tf, ?_, fun k v hkv => Or.inl hkv⟩
      rw [getKey_normArrayField_ne _ "sources" "title" (by decide),
          getKey_normArrayField_ne _ "authors" "title" (by decide), hfeq]
      exact ht

/-- Witness for C9 amended: a string-valued `authors` survives (wrapped
into a one-element array). -/
theorem c9_present_values_survive_witness :
    getKey (normArrayField (normArrayField
        [("authors", Json.str "A")] "authors") "sources") "authors" =
      some (Json.str "A") ∨
    getKey (normArrayField (normArrayField
        [("authors", Json.str "A")] "authors") "sources") "authors" =
      some (Json.arr [Json.str "A"]) :=
  (c9_present_values_survive [("authors", Json.str "A")]
    (normArrayField (normArrayField [("authors", Json.str "A")] "authors")
      "sources") rfl
    (fun v hv => by
      have h2 := Option.some.inj hv
      rw [← h2]; rfl)
    (fun v hv => Option.noConfusion hv)).1
    "authors" (Json.str "A") (by decide) rfl

theorem head?_dropWhile_false (p : Char → Bool) :
    ∀ (l : List Char) (c : Char),
      (List.dropWhile p l).head? = some c → p c = false := by
  intro l
  induction l with
  | nil => intro c h; exact Option.noConfusion h
  | cons a rest ih =>
      intro c h
      rw [List.dropWhile_cons] at h
      by_cases hp : p a
      · rw [if_pos hp] at h; exact ih c h
      · rw [if_neg hp] at h
        have hac : a = c := Option.some.inj h
        subst hac
        exact Bool.eq_false_iff.mpr hp

theorem getLast?_dropWhile_of_ne_nil (p : Char → Bool) :
    ∀ l : List Char, List.dropWhile p l ≠ [] →
      (List.dropWhile p l).getLast? = l.getLast? := by
  intro l
  induction l with
  | nil => intro h; exact absurd rfl h
  | cons a rest ih =>
      intro h
      rw [List.dropWhile_cons]
      by_cases hp : p a
      · rw [if_pos hp]
        have h2 : List.dropWhile p rest ≠ [] := by
          rw [List.dropWhile_cons, if_pos hp] at h; exact h
        rw [ih h2]
        cases rest with
        | nil => exact absurd rfl h2
        | cons b rs => rw [List.getLast?_cons_cons]
      · rw [if_neg hp]

theorem pyStrip_length_le (l : List Char) : (pyStrip l).length ≤ l.length := by
  unfold pyStrip
  calc ((l.dropWhile pyIsSpace).reverse.dropWhile pyIsSpace).reverse.length
      = ((l.dropWhile pyIsSpace).reverse.dropWhile pyIsSpace).length := by
        rw [List.length_reverse]
    _ ≤ (l.dropWhile pyIsSpace).reverse.length :=
        (List.dropWhile_sublist pyIsSpace).length_le
    _ = (l.dropWhile pyIsSpace).length := by rw [List.length_reverse]
    _ ≤ l.length := (List.dropWhile_sublist pyIsSpace).length_le

theorem pyStrip_mem {l : List Char} {c : Char} (h : c ∈ pyStrip l) :
    c ∈ l := by
  unfold pyStrip at h
  rw [List.mem_reverse] at h
  have h2 := (List.dropWhile_sublist pyIsSpace).mem h
  rw [List.mem_reverse] at h2
  exact (List.dropWhile_sublist pyIsSpace).mem h2

theorem pyStrip_head (l : List Char) (c : Char)
    (h : (pyStrip l).head? = some c) : pyIsSpace c = false := by
  unfold pyStrip at h
  rw [List.head?_reverse] at h
  have hne : List.dropWhile pyIsSpace
      ((l.dropWhile pyIsSpace).reverse) ≠ [] := by
    intro h0; rw [h0] at h; exact Option.noConfusion h
  rw [getLast?_dropWhile_of_ne_nil pyIsSpace _ hne, List.getLast?_reverse] at h
  exact head?_dropWhile_false pyIsSpace l c h

theorem pyStrip_getLast (l : List Char) (c : Char)
    (h : (pyStrip l).getLast? = some c) : pyIsSpace c = false := by
  unfold pyStrip at h
  rw [List.getLast?_reverse] at h
  exact head?_dropWhile_false pyIsSpace _ c h

/-- C10: `sanitize_input` returns a string of at most `max_length`
characters, all printable, with no leading or trailing whitespace, and
returns the empty string on `None` and on the empty string. -/
theorem c10_sanitize_input (text : Option String) (n : Nat) :
    (sanitize_input text n).length ≤ n ∧
    (∀ c ∈ (sanitize_input text n).toList, pyIsPrintable c = true) ∧
    (∀ c, (sanitize_input text n).toList.head? = some c →
      pyIsSpace c = false) ∧
    (∀ c, (sanitize_input text n).toList.getLast? = some c →
      pyIsSpace c = false) ∧
    sanitize_input none n = "" ∧ sanitize_input (some "") n = "" := by
  cases text with
  | none =>
      refine ⟨Nat.zero_le n, ?_, ?_, ?_, rfl, rfl⟩
      · intro c hc; exact absurd hc (List.not_mem_nil c)
      · intro c hc; exact Option.noConfusion hc
      · intro c hc; exact Option.noConfusion hc
  | some s =>
      by_cases hs : s = ""
      · subst hs
        refine ⟨Nat.zero_le n, ?_, ?_, ?_, rfl, rfl⟩
        · intro c hc; exact absurd hc (List.not_mem_nil c)
        · intro c hc; exact Option.noConfusion hc
        · intro c hc; exact Option.noConfusion hc
      · have hres : sanitize_input (some s) n =
            ⟨pyStrip ((s.data.filter pyIsPrintable).take n)⟩ := by
          simp [sanitize_input, hs]
        refine ⟨?_, ?_, ?_, ?_, rfl, rfl⟩
        · rw [hres]
          exact le_trans (pyStrip_length_le _) (List.length_take_le _ _)
        · rw [hres]
          intro c hc
          have h1 := pyStrip_mem hc
          have h2 := (List.take_sublist _ _).mem h1
          exact (List.mem_filter.mp h2).2
        · rw [hres]; intro c hc; exact pyStrip_head _ c hc
        · rw [hres]; intro c hc; exact pyStrip_getLast _ c hc

end Claims

end BookResearch
